import Mathlib

set_option maxRecDepth 100000

/-!
Shallow embedding of the CobolAnlyzer core pipeline
(CobolTokenizer.py, CobolParser.py, CobolAnalyzer.py) in Lean 4,
with theorems settling the claims about this program.

Conventions of the embedding:
* Python strings are Lean `String` / `List Char`; the scanners work on
  `List Char` and assemble token values with `String.mk`.
* Python regular-expression matches of the fixed patterns in
  `CobolTokenizer.PATTERNS` are implemented directly as character-level
  matchers (each pattern is anchored with `.match`, so only a match at the
  start of the remaining slice counts).
* Python dicts are association lists with dict semantics (update replaces
  the existing entry in place, otherwise appends); Python sets are
  insertion-ordered duplicate-free lists (`addSet`).
* Index-based `while` loops over `self.tokens` that advance by one each
  iteration become structural recursion over the token list; the two loops
  of `_extract_resources` / `_extract_maps` that additionally skip forward
  past `END-EXEC` use an explicit fuel argument (`length + 1`, which never
  runs out because every step consumes at least one token).
* File IO is outside the embedding: `parse` derives the program name from
  the source path with `os.path`; the embedded `parseProgram` takes the
  derived program name and the source text as arguments.
-/

/-- Token kinds, from `TokenType` in main.py. -/
inductive TokenType where
  | KEYWORD
  | IDENTIFIER
  | LITERAL
  | NUMBER
  | OPERATOR
  | PUNCTUATION
  | COMMENT
  | DIVISION
  | SECTION
  | PARAGRAPH
  | STATEMENT
  | SPECIAL
  | UNKNOWN
deriving DecidableEq

/-- A COBOL token with type, value and position, from `Token` in main.py. -/
structure Token where
  type : TokenType
  value : String
  line : Nat
  column : Nat
deriving DecidableEq

/-- ASCII uppercase of one character, as Python str.upper acts on ASCII. -/
def pyCharUpper (c : Char) : Char :=
  if 'a' ≤ c ∧ c ≤ 'z' then Char.ofNat (c.toNat - 32) else c

/-- Python str.upper restricted to ASCII letters (all inputs of interest are ASCII). -/
def pyUpperStr (s : String) : String :=
  String.mk (s.data.map pyCharUpper)

/-- Python regex class backslash-s for ASCII: space, tab, newline, carriage
return, vertical tab, form feed. (The Unicode spaces Python also accepts are
not modelled; no claim depends on them.) -/
def isPySpace (c : Char) : Bool :=
  c = ' ' ∨ c = '\t' ∨ c = '\n' ∨ c = '\r' ∨ c = '\x0b' ∨ c = '\x0c'

/-- Decimal digit, the regex class backslash-d (ASCII). -/
def isDigitChar (c : Char) : Bool :=
  '0' ≤ c ∧ c ≤ '9'

/-- The regex class [A-Za-z0-9], first character of the identifier pattern. -/
def isAlnumChar (c : Char) : Bool :=
  ('A' ≤ c ∧ c ≤ 'Z') ∨ ('a' ≤ c ∧ c ≤ 'z') ∨ ('0' ≤ c ∧ c ≤ '9')

/-- The regex class [-A-Za-z0-9], continuation characters of the identifier pattern. -/
def isIdentTail (c : Char) : Bool :=
  c = '-' ∨ isAlnumChar c

/-- The regex class of the operator pattern [+\-*/=<>]. -/
def isOperatorChar (c : Char) : Bool :=
  c = '+' ∨ c = '-' ∨ c = '*' ∨ c = '/' ∨ c = '=' ∨ c = '<' ∨ c = '>'

/-- The regex class of the punctuation pattern [.,;:]. -/
def isPunctChar (c : Char) : Bool :=
  c = '.' ∨ c = ',' ∨ c = ';' ∨ c = ':'

/-- The regex class of the special pattern [(){}[\]] (parentheses, braces, brackets). -/
def isSpecialChar (c : Char) : Bool :=
  c = '(' ∨ c = ')' ∨ c = '\x7b' ∨ c = '\x7d' ∨ c = '[' ∨ c = ']'

/-- View realising the Python regex anchor for the dollar sign on a slice with
no embedded newline semantics: the dollar matches at the end of the string, or
just before a newline that is the last character. Returns the part of `cs` a
run of dot-class characters anchored at both ends can cover, if any. -/
def dollarView (cs : List Char) : Option (List Char) :=
  if '\n' ∈ cs then
    if cs.getLast? = some '\n' ∧ '\n' ∉ cs.dropLast then some cs.dropLast else none
  else some cs

/-- Match of the whitespace pattern at the start of the slice: length of the
maximal run of whitespace characters, when positive. -/
def matchWhitespace (cs : List Char) : Option Nat :=
  let k := (cs.takeWhile isPySpace).length
  if k = 0 then none else some k

/-- Match of the comment pattern at the start of the slice
(a star followed by the rest of the line, or a line of the form /…/). -/
def matchComment (cs : List Char) : Option Nat :=
  match cs with
  | '*' :: _ => (dollarView cs).map (·.length)
  | '/' :: _ =>
    match dollarView cs with
    | some s => if 3 ≤ s.length ∧ s.getLast? = some '/' then some s.length else none
    | none => none
  | _ => none

/-- Match of the string-literal pattern: a double quote, any characters other
than a double quote (captured), and a closing double quote. Returns consumed
length and the captured group. -/
def matchStringLit (cs : List Char) : Option (Nat × List Char) :=
  match cs with
  | '"' :: rest =>
    let mid := rest.takeWhile (fun c => c ≠ '"')
    match rest.drop mid.length with
    | '"' :: _ => some (mid.length + 2, mid)
    | _ => none
  | _ => none

/-- Match of the number pattern: one or more digits, optionally a dot and one
or more digits. -/
def matchNumber (cs : List Char) : Option Nat :=
  let d1 := (cs.takeWhile isDigitChar).length
  if d1 = 0 then none
  else
    match cs.drop d1 with
    | '.' :: rest2 =>
      let d2 := (rest2.takeWhile isDigitChar).length
      if d2 = 0 then some d1 else some (d1 + 1 + d2)
    | _ => some d1

/-- Match of the identifier pattern: an alphanumeric character followed by
alphanumerics or hyphens. -/
def matchIdentifier (cs : List Char) : Option Nat :=
  match cs with
  | c :: rest => if isAlnumChar c then some (1 + (rest.takeWhile isIdentTail).length) else none
  | [] => none

/-- Match of the single-character operator pattern. -/
def matchOperator (cs : List Char) : Option Nat :=
  match cs with
  | c :: _ => if isOperatorChar c then some 1 else none
  | [] => none

/-- Match of the single-character punctuation pattern. -/
def matchPunct (cs : List Char) : Option Nat :=
  match cs with
  | c :: _ => if isPunctChar c then some 1 else none
  | [] => none

/-- Match of the single-character special pattern. -/
def matchSpecial (cs : List Char) : Option Nat :=
  match cs with
  | c :: _ => if isSpecialChar c then some 1 else none
  | [] => none

/-- The COBOL reserved-word set, from `CobolTokenizer.KEYWORDS`. -/
def cobolKeywords : List String :=
  ["ACCEPT", "ACCESS", "ADD", "ADDRESS", "ADVANCING", "AFTER", "ALL", "ALPHABET",
   "ALPHABETIC", "ALPHABETIC-LOWER", "ALPHABETIC-UPPER", "ALPHANUMERIC", "ALPHANUMERIC-EDITED",
   "ALSO", "ALTER", "ALTERNATE", "AND", "ANY", "APPLY", "ARE", "AREA", "AREAS", "ASCENDING",
   "ASSIGN", "AT", "AUTHOR", "BASIS", "BEFORE", "BEGINNING", "BINARY", "BLANK", "BLOCK",
   "BOTTOM", "BY", "CALL", "CANCEL", "CBL", "CD", "CF", "CH", "CHARACTER", "CHARACTERS",
   "CLASS", "CLOCK-UNITS", "CLOSE", "COBOL", "CODE", "CODE-SET", "COLLATING", "COLUMN",
   "COMMA", "COMMON", "COMMUNICATION", "COMP", "COMP-1", "COMP-2", "COMP-3", "COMP-4",
   "COMPUTATIONAL", "COMPUTATIONAL-1", "COMPUTATIONAL-2", "COMPUTATIONAL-3", "COMPUTATIONAL-4",
   "COMPUTE", "CONFIGURATION", "CONTAINS", "CONTENT", "CONTINUE", "CONTROL", "CONTROLS",
   "CONVERTING", "COPY", "CORR", "CORRESPONDING", "COUNT", "CURRENCY", "DATA", "DATE",
   "DATE-COMPILED", "DATE-WRITTEN", "DAY", "DAY-OF-WEEK", "DB", "DB-ACCESS-CONTROL-KEY",
   "DB-DATA-NAME", "DB-EXCEPTION", "DB-RECORD-NAME", "DB-SET-NAME", "DB-STATUS", "DBCS",
   "DE", "DEBUG-CONTENTS", "DEBUG-ITEM", "DEBUG-LINE", "DEBUG-NAME", "DEBUG-SUB-1",
   "DEBUG-SUB-2", "DEBUG-SUB-3", "DEBUGGING", "DECIMAL-POINT", "DECLARATIVES", "DELETE",
   "DELIMITED", "DELIMITER", "DEPENDING", "DESCENDING", "DESTINATION", "DETAIL", "DISABLE",
   "DISPLAY", "DIVIDE", "DIVISION", "DOWN", "DUPLICATES", "DYNAMIC", "EGI", "ELSE", "EMI",
   "ENABLE", "ENCRYPTION", "END", "END-ADD", "END-CALL", "END-COMPUTE", "END-DELETE",
   "END-DIVIDE", "END-EVALUATE", "END-EXEC", "END-IF", "END-MULTIPLY", "END-OF-PAGE",
   "END-PERFORM", "END-READ", "END-RECEIVE", "END-RETURN", "END-REWRITE", "END-SEARCH",
   "END-START", "END-STRING", "END-SUBTRACT", "END-UNSTRING", "END-WRITE", "ENDING", "ENTER",
   "ENTRY", "ENVIRONMENT", "EOP", "EQUAL", "ERROR", "ESI", "EVALUATE", "EVERY", "EXCEPTION",
   "EXEC", "EXECUTE", "EXIT", "EXTEND", "EXTERNAL", "FALSE", "FD", "FILE", "FILE-CONTROL",
   "FILLER", "FINAL", "FIRST", "FOOTING", "FOR", "FROM", "FUNCTION", "GENERATE", "GIVING",
   "GLOBAL", "GO", "GOBACK", "GREATER", "GROUP", "HEADING", "HIGH-VALUE", "HIGH-VALUES",
   "I-O", "I-O-CONTROL", "ID", "IDENTIFICATION", "IF", "IN", "INDEX", "INDEXED", "INDICATE",
   "INITIAL", "INITIALIZE", "INITIATE", "INPUT", "INPUT-OUTPUT", "INSPECT", "INSTALLATION",
   "INTO", "INVALID", "INVOKE", "IS", "JUST", "JUSTIFIED", "KEY", "LABEL", "LAST", "LEADING",
   "LEFT", "LENGTH", "LESS", "LIMIT", "LIMITS", "LINAGE", "LINAGE-COUNTER", "LINE",
   "LINE-COUNTER", "LINES", "LINKAGE", "LOCAL-STORAGE", "LOCK", "LOW-VALUE", "LOW-VALUES",
   "MEMORY", "MERGE", "MESSAGE", "METACLASS", "METHOD", "METHOD-ID", "MODE", "MODULES",
   "MORE-LABELS", "MOVE", "MULTIPLE", "MULTIPLY", "NATIVE", "NEGATIVE", "NEXT", "NO",
   "NOT", "NULL", "NULLS", "NUMBER", "NUMERIC", "NUMERIC-EDITED", "OBJECT", "OBJECT-COMPUTER",
   "OCCURS", "OF", "OFF", "OMITTED", "ON", "OPEN", "OPTIONAL", "OR", "ORDER", "ORGANIZATION",
   "OTHER", "OUTPUT", "OVERFLOW", "OVERRIDE", "PACKED-DECIMAL", "PADDING", "PAGE",
   "PAGE-COUNTER", "PASSWORD", "PERFORM", "PF", "PH", "PIC", "PICTURE", "PLUS", "POINTER",
   "POSITION", "POSITIVE", "PRINTING", "PROCEDURE", "PROCEDURES", "PROCEED", "PROGRAM",
   "PROGRAM-ID", "PROPERTY", "PROTOTYPE", "PURGE", "QUEUE", "QUOTE", "QUOTES", "RANDOM",
   "RD", "READ", "READY", "RECEIVE", "RECORD", "RECORDING", "RECORDS", "RECURSIVE",
   "REDEFINES", "REEL", "REFERENCE", "REFERENCES", "RELATIVE", "RELEASE", "RELOAD",
   "REMAINDER", "REMOVAL", "RENAMES", "REPLACE", "REPLACING", "REPORT", "REPORTING",
   "REPORTS", "REPOSITORY", "RERUN", "RESERVE", "RESET", "RETURN", "RETURNING", "REVERSED",
   "REWIND", "REWRITE", "RF", "RH", "RIGHT", "ROUNDED", "RUN", "SAME", "SD", "SEARCH",
   "SECTION", "SECURITY", "SEGMENT", "SEGMENT-LIMIT", "SELECT", "SELF", "SEND", "SENTENCE",
   "SEPARATE", "SEQUENCE", "SEQUENTIAL", "SERVICE", "SET", "SHIFT-IN", "SHIFT-OUT", "SIGN",
   "SIZE", "SKIP1", "SKIP2", "SKIP3", "SORT", "SORT-CONTROL", "SORT-CORE-SIZE",
   "SORT-FILE-SIZE", "SORT-MERGE", "SORT-MESSAGE", "SORT-MODE-SIZE", "SORT-RETURN",
   "SOURCE", "SOURCE-COMPUTER", "SPACE", "SPACES", "SPECIAL-NAMES", "STANDARD",
   "STANDARD-1", "STANDARD-2", "START", "STATUS", "STOP", "STRING", "SUB-QUEUE-1",
   "SUB-QUEUE-2", "SUB-QUEUE-3", "SUBTRACT", "SUM", "SUPER", "SUPPRESS", "SYMBOLIC",
   "SYNC", "SYNCHRONIZED", "TABLE", "TALLY", "TALLYING", "TAPE", "TERMINAL", "TERMINATE",
   "TEST", "TEXT", "THAN", "THEN", "THROUGH", "THRU", "TIME", "TIMES", "TITLE", "TO",
   "TOP", "TRACE", "TRAILING", "TRUE", "TYPE", "UNIT", "UNSTRING", "UNTIL", "UP", "UPON",
   "USAGE", "USE", "USING", "VALUE", "VALUES", "VARYING", "WHEN", "WITH", "WORDS",
   "WORKING-STORAGE", "WRITE", "ZERO", "ZEROES", "ZEROS"]

/-- The COBOL divisions, from `CobolTokenizer.DIVISIONS`. -/
def cobolDivisions : List String :=
  ["IDENTIFICATION", "ENVIRONMENT", "DATA", "PROCEDURE"]

/-- Classification of an identifier-shaped word: KEYWORD when its uppercase is
a reserved word, overridden to DIVISION for the four division names,
IDENTIFIER otherwise (CobolTokenizer._tokenize_line, identifier branch). -/
def classifyWord (w : String) : TokenType :=
  if cobolDivisions.contains (pyUpperStr w) then TokenType.DIVISION
  else if cobolKeywords.contains (pyUpperStr w) then TokenType.KEYWORD
  else TokenType.IDENTIFIER

/-- One attempt of the per-line scanner at the current position: the pattern
checks of `CobolTokenizer._tokenize_line` in source order (whitespace, comment,
string literal, number, identifier or keyword, operator, punctuation, special,
and the unknown-character fallback). Returns the emitted token, if any, and
the number of characters consumed. -/
def scanToken (lineNo col : Nat) (cs : List Char) : Option Token × Nat :=
  match matchWhitespace cs with
  | some n => (none, n)
  | none =>
  match matchComment cs with
  | some n => (some ⟨TokenType.COMMENT, String.mk (cs.take n), lineNo, col⟩, n)
  | none =>
  match matchStringLit cs with
  | some (n, mid) => (some ⟨TokenType.LITERAL, String.mk mid, lineNo, col⟩, n)
  | none =>
  match matchNumber cs with
  | some n => (some ⟨TokenType.NUMBER, String.mk (cs.take n), lineNo, col⟩, n)
  | none =>
  match matchIdentifier cs with
  | some n => (some ⟨classifyWord (String.mk (cs.take n)), String.mk (cs.take n), lineNo, col⟩, n)
  | none =>
  match matchOperator cs with
  | some n => (some ⟨TokenType.OPERATOR, String.mk (cs.take n), lineNo, col⟩, n)
  | none =>
  match matchPunct cs with
  | some n => (some ⟨TokenType.PUNCTUATION, String.mk (cs.take n), lineNo, col⟩, n)
  | none =>
  match matchSpecial cs with
  | some n => (some ⟨TokenType.SPECIAL, String.mk (cs.take n), lineNo, col⟩, n)
  | none =>
  match cs with
  | c :: _ => (some ⟨TokenType.UNKNOWN, String.mk [c], lineNo, col⟩, 1)
  | [] => (none, 1)

/-- The while loop of `CobolTokenizer._tokenize_line`, as recursion on a fuel
bound; every step consumes at least one character, so fuel `length + 1` never
runs out. -/
def tokenizeLineAux (lineNo : Nat) : Nat → List Char → Nat → List Token
  | 0, _, _ => []
  | _ + 1, [], _ => []
  | fuel + 1, c :: cs, col =>
    match scanToken lineNo col (c :: cs) with
    | (some t, n) => t :: tokenizeLineAux lineNo fuel ((c :: cs).drop n) (col + n)
    | (none, n) => tokenizeLineAux lineNo fuel ((c :: cs).drop n) (col + n)

/-- CobolTokenizer._tokenize_line on a line slice, starting at the given column. -/
def tokenizeLine (lineNo : Nat) (cs : List Char) (col : Nat) : List Token :=
  tokenizeLineAux lineNo (cs.length + 1) cs col

/-- Line-break characters recognised by Python str.splitlines. -/
def isPyLineBreak (c : Char) : Bool :=
  c = '\n' ∨ c = '\r' ∨ c = '\x0b' ∨ c = '\x0c' ∨ c = '\x1c' ∨ c = '\x1d' ∨
  c = '\x1e' ∨ c = '\x85' ∨ c = '\u2028' ∨ c = '\u2029'

/-- Python str.splitlines, accumulator form; a carriage return immediately
followed by a newline counts as a single break. -/
def pySplitLinesAux : List Char → List Char → List (List Char)
  | [], acc => if acc.isEmpty then [] else [acc.reverse]
  | '\r' :: '\n' :: cs, acc => acc.reverse :: pySplitLinesAux cs []
  | c :: cs, acc =>
    if isPyLineBreak c then acc.reverse :: pySplitLinesAux cs []
    else pySplitLinesAux cs (c :: acc)

/-- Python str.splitlines. -/
def pySplitLines (cs : List Char) : List (List Char) :=
  pySplitLinesAux cs []

/-- Python str.rstrip: drop trailing whitespace. -/
def pyRStrip (cs : List Char) : List Char :=
  (cs.reverse.dropWhile isPySpace).reverse

/-- Python str.strip: drop leading and trailing whitespace. -/
def pyStrip (cs : List Char) : List Char :=
  pyRStrip (cs.dropWhile isPySpace)

/-- The per-line dispatch of `CobolTokenizer.tokenize`: skip short lines,
turn a line with a star in column 7 into a single Comment token, otherwise
scan the content from column 7 (string index 6) after stripping trailing
whitespace. The first argument numbers the lines, starting from 1. -/
def tokenizeLines : Nat → List (List Char) → List Token
  | _, [] => []
  | n, line :: rest =>
    (if 6 < line.length then
      if 7 < line.length ∧ line.get? 6 = some '*' then
        [⟨TokenType.COMMENT, String.mk (pyStrip (line.drop 7)), n, 7⟩]
      else
        tokenizeLine n (pyRStrip (line.drop 6)) 7
    else []) ++ tokenizeLines (n + 1) rest

/-- CobolTokenizer.tokenize. -/
def tokenize (source_code : String) : List Token :=
  tokenizeLines 1 (pySplitLines source_code.data)

/-- A file referenced in a COBOL program, from `FileReference` in main.py. -/
structure FileReference where
  name : String
  access_mode : String
  organization : Option String
  record_key : Option String
  location : Nat × Nat
deriving DecidableEq

/-- A call to another program, from `ProgramCall` in main.py. -/
structure ProgramCall where
  target : String
  is_dynamic : Bool
  parameters : List String
  location : Nat × Nat
deriving DecidableEq

/-- A data item of the DATA DIVISION, from `DataItem` in main.py
(the `indexed_by` list is never populated by the parser). -/
structure DataItem where
  name : String
  level : Nat
  picture : Option String
  usage : Option String
  value : Option String
  redefines : Option String
  occurs : Option Nat
  indexed_by : List String
  location : Nat × Nat
deriving DecidableEq

/-- A paragraph of the PROCEDURE DIVISION, from `Paragraph` in main.py
(the `statements` and `calls` lists are never populated by the parser). -/
structure Paragraph where
  name : String
  start_line : Nat
  end_line : Nat
deriving DecidableEq

/-- A section of a division, from `Section` in main.py. -/
structure Section where
  name : String
  start_line : Nat
  end_line : Nat
  paragraphs : List (String × Paragraph)
deriving DecidableEq

/-- A division of a COBOL program, from `Division` in main.py. -/
structure Division where
  name : String
  start_line : Nat
  end_line : Nat
  sections : List (String × Section)
deriving DecidableEq

/-- A system resource used by the program, from `Resource` in main.py. -/
structure Resource where
  name : String
  type : String
  operation : String
  location : Nat × Nat
deriving DecidableEq

/-- The parsed program model, from `CobolProgram` in main.py. Dicts are
association lists, sets are duplicate-free lists. -/
structure CobolProgram where
  name : String
  source_path : String
  divisions : List (String × Division)
  data_items : List (String × DataItem)
  files : List FileReference
  calls : List ProgramCall
  resources : List Resource
  called_by : List String
  maps_used : List String
  copybooks : List String
deriving DecidableEq

/-- Lookup in an association list (Python dict access). -/
def lookupAssoc {α : Type} : List (String × α) → String → Option α
  | [], _ => none
  | (k, v) :: rest, key => if k = key then some v else lookupAssoc rest key

/-- Python dict assignment d[k] = v: replace the entry in place when the key
exists, otherwise append a new entry at the end. -/
def updateAssoc {α : Type} : List (String × α) → String → α → List (String × α)
  | [], key, v => [(key, v)]
  | (k, w) :: rest, key, v =>
    if k = key then (k, v) :: rest else (k, w) :: updateAssoc rest key v

/-- Python `key in dict`. -/
def hasKey {α : Type} (l : List (String × α)) (key : String) : Bool :=
  (lookupAssoc l key).isSome

/-- Python set.add on an insertion-ordered duplicate-free list. -/
def addSet (l : List String) (x : String) : List String :=
  if l.contains x then l else l ++ [x]

/-- Python int() on the digit-only strings the parser feeds it: defined when
the string is a nonempty run of decimal digits, as for a NUMBER token without
a decimal point; int() raises ValueError otherwise (for example on "1.5"),
which the parser catches. -/
def pyIntNat (s : String) : Option Nat :=
  if s.data ≠ [] ∧ s.data.all isDigitChar then
    some (s.data.foldl (fun n c => n * 10 + (c.toNat - 48)) 0)
  else none

/-- State of the scope-tree walk of `CobolParser._parse_divisions`: the
committed divisions and data items, and the currently open division, section
and paragraph. -/
structure DivState where
  divisions : List (String × Division)
  data_items : List (String × DataItem)
  curDiv : Option Division
  curSec : Option Section
  curPar : Option Paragraph

/-- Closing of all open scopes at a given end line: the open paragraph is
committed into the open section, the section into the open division, and the
division into the division map (nothing happens without an open division);
this is the close sequence run at a DIVISION token and at end of stream. -/
def closeScopes (st : DivState) (endLine : Nat) : List (String × Division) :=
  match st.curDiv with
  | none => st.divisions
  | some d =>
    let d :=
      match st.curSec with
      | none => d
      | some s =>
        let s :=
          match st.curPar with
          | none => s
          | some p =>
            { s with paragraphs := updateAssoc s.paragraphs p.name { p with end_line := endLine } }
        { d with sections := updateAssoc d.sections s.name { s with end_line := endLine } }
    updateAssoc st.divisions d.name { d with end_line := endLine }

/-- The same-line clause scan of the data-item branch of
`CobolParser._parse_divisions`: starting two tokens after the level number,
while the scanned token is on the line of the level number, consume
PIC/PICTURE, USAGE, VALUE, REDEFINES and OCCURS keyword-value pairs (two
tokens at a time) and skip anything else one token at a time. An OCCURS value
that is not an integer yields occurs = 0. -/
def dataScan (lineNo : Nat) : List Token → DataItem → DataItem
  | [], item => item
  | u :: rest, item =>
    if u.line = lineNo then
      if pyUpperStr u.value = "PIC" ∨ pyUpperStr u.value = "PICTURE" then
        match rest with
        | v :: rest2 => dataScan lineNo rest2 { item with picture := some v.value }
        | [] => item
      else if pyUpperStr u.value = "USAGE" then
        match rest with
        | v :: rest2 => dataScan lineNo rest2 { item with usage := some v.value }
        | [] => item
      else if pyUpperStr u.value = "VALUE" then
        match rest with
        | v :: rest2 => dataScan lineNo rest2 { item with value := some v.value }
        | [] => item
      else if pyUpperStr u.value = "REDEFINES" then
        match rest with
        | v :: rest2 => dataScan lineNo rest2 { item with redefines := some v.value }
        | [] => item
      else if pyUpperStr u.value = "OCCURS" then
        match rest with
        | v :: rest2 => dataScan lineNo rest2 { item with occurs := some ((pyIntNat v.value).getD 0) }
        | [] => item
      else dataScan lineNo rest item
    else item

/-- The main loop of `CobolParser._parse_divisions`. The loop index advances
by one each iteration; `prev` carries the previous token (none at index 0)
and the lookahead tokens are the head of `rest`. A token of type DIVISION
closes the open scopes and opens a new division. A token of type SECTION
preceded by an Identifier opens a section under the open division (the
tokenizer never produces SECTION tokens, so this branch is dead in the
pipeline). An Identifier that starts a line inside the PROCEDURE division,
not followed by the value SECTION, opens a paragraph when a section is open.
A Number followed by an Identifier inside the DATA division records a data
item. -/
def divLoop : Option Token → List Token → DivState → DivState
  | _, [], st => st
  | prev, t :: rest, st =>
    let st :=
      if t.type = TokenType.DIVISION then
        { st with
          divisions := closeScopes st (t.line - 1)
          curDiv := some ⟨pyUpperStr t.value, t.line, 0, []⟩
          curSec := none
          curPar := none }
      else if t.type = TokenType.SECTION then
        match prev with
        | some p =>
          if p.type = TokenType.IDENTIFIER then
            match st.curDiv with
            | none => st
            | some d =>
              let d :=
                match st.curSec with
                | none => d
                | some s =>
                  let s :=
                    match st.curPar with
                    | none => s
                    | some pr =>
                      { s with paragraphs := updateAssoc s.paragraphs pr.name { pr with end_line := t.line - 1 } }
                  { d with sections := updateAssoc d.sections s.name { s with end_line := t.line - 1 } }
              { st with
                curDiv := some d
                curSec := some ⟨pyUpperStr p.value, t.line, 0, []⟩
                curPar := none }
          else st
        | none => st
      else if t.type == TokenType.IDENTIFIER &&
              (match st.curDiv with | some d => d.name == "PROCEDURE" | none => false) &&
              (match prev with | none => true | some p => p.line != t.line) &&
              (match rest with | nt :: _ => nt.value != "SECTION" | [] => false) then
        match st.curSec with
        | none => st
        | some s =>
          let s :=
            match st.curPar with
            | none => s
            | some pr =>
              { s with paragraphs := updateAssoc s.paragraphs pr.name { pr with end_line := t.line - 1 } }
          { st with
            curSec := some s
            curPar := some ⟨pyUpperStr t.value, t.line, 0⟩ }
      else if (match st.curDiv with | some d => d.name == "DATA" | none => false) &&
              t.type == TokenType.NUMBER &&
              (match rest with | u :: _ => u.type == TokenType.IDENTIFIER | [] => false) then
        match rest with
        | u :: rest2 =>
          match pyIntNat t.value with
          | none => st
          | some level =>
            let item := dataScan t.line rest2
              ⟨pyUpperStr u.value, level, none, none, none, none, none, [], (t.line, t.column)⟩
            { st with data_items := updateAssoc st.data_items (pyUpperStr u.value) item }
        | [] => st
      else st
    divLoop (some t) rest st

/-- CobolParser._parse_divisions: run the loop and close any still-open
scopes using the line of the last token (0 when there are no tokens). -/
def parseDivisions (tokens : List Token) : List (String × Division) × List (String × DataItem) :=
  let st := divLoop none tokens ⟨[], [], none, none, none⟩
  let lastLine := match tokens.getLast? with | some t => t.line | none => 0
  (closeScopes st lastLine, st.data_items)

/-- The bounded clause scan after `SELECT <name>` in
`CobolParser._extract_file_references`: starting two tokens after SELECT,
stop at another SELECT, pick up ORGANIZATION, ACCESS MODE and RECORD KEY
values, and stop after a step that lands on the end of the stream or on a
period token. -/
def selectScan : List Token → Option String → String → Option String →
    Option String × String × Option String
  | [], org, am, rk => (org, am, rk)
  | u :: rest, org, am, rk =>
    if pyUpperStr u.value = "SELECT" then (org, am, rk)
    else
      let org :=
        match rest with
        | v :: _ => if pyUpperStr u.value = "ORGANIZATION" then some (pyUpperStr v.value) else org
        | [] => org
      let am :=
        match rest with
        | v :: w :: _ =>
          if pyUpperStr u.value = "ACCESS" ∧ pyUpperStr v.value = "MODE" then pyUpperStr w.value else am
        | _ => am
      let rk :=
        match rest with
        | v :: w :: _ =>
          if pyUpperStr u.value = "RECORD" ∧ pyUpperStr v.value = "KEY" then some (pyUpperStr w.value) else rk
        | _ => rk
      match rest with
      | [] => (org, am, rk)
      | v :: _ => if pyUpperStr v.value = "." then (org, am, rk) else selectScan rest org am rk

/-- The first scan of `CobolParser._extract_file_references`: a SELECT keyword
followed by an Identifier registers a FileReference with default access mode
SEQUENTIAL, refined by the bounded clause scan. -/
def extractSelectRefs : List Token → List FileReference → List FileReference
  | [], acc => acc
  | t :: rest, acc =>
    let acc :=
      if t.type = TokenType.KEYWORD ∧ pyUpperStr t.value = "SELECT" then
        match rest with
        | u :: rest2 =>
          if u.type = TokenType.IDENTIFIER then
            let (org, am, rk) := selectScan rest2 none "SEQUENTIAL" none
            acc ++ [⟨pyUpperStr u.value, am, org, rk, (t.line, t.column)⟩]
          else acc
        | [] => acc
      else acc
    extractSelectRefs rest acc

/-- The same-line lookahead of the second scan of
`CobolParser._extract_file_references`: every Identifier after the current
token on the same line whose uppercase name is not yet in the files list is
appended as a FileReference with access mode UNKNOWN, located at the current
token. -/
def fileLineScan (t : Token) : List Token → List FileReference → List FileReference
  | [], acc => acc
  | u :: rest, acc =>
    if u.line = t.line then
      let acc :=
        if u.type = TokenType.IDENTIFIER ∧ ¬ acc.any (fun f => f.name = pyUpperStr u.value) then
          acc ++ [⟨pyUpperStr u.value, "UNKNOWN", none, none, (t.line, t.column)⟩]
        else acc
      fileLineScan t rest acc
    else acc

/-- The second scan of `CobolParser._extract_file_references`. In the source,
the check for an I/O verb (OPEN, CLOSE, READ, WRITE, REWRITE, DELETE, START)
only binds a local variable that is never read: the same-line lookahead that
registers UNKNOWN file references is indented at loop level and therefore runs
for every token, not only after an I/O verb. The embedding reproduces this
faithfully, so the verb check has no observable effect and is not represented. -/
def extractFileOps : List Token → List FileReference → List FileReference
  | [], acc => acc
  | t :: rest, acc => extractFileOps rest (fileLineScan t rest acc)

/-- CobolParser._extract_file_references: the SELECT scan followed by the
procedure-division operation scan, both appending to the same files list. -/
def extractFileReferences (tokens : List Token) : List FileReference :=
  extractFileOps tokens (extractSelectRefs tokens [])

/-- The same-line parameter scan of `CobolParser._extract_program_calls`:
starting two tokens after CALL, a USING keyword turns on collection, and
subsequent Identifier tokens on the same line are collected (uppercased). -/
def callParamScan (lineNo : Nat) : List Token → Bool → List String → List String
  | [], _, ps => ps
  | u :: rest, usingFound, ps =>
    if u.line = lineNo then
      if u.type = TokenType.KEYWORD ∧ pyUpperStr u.value = "USING" then
        callParamScan lineNo rest true ps
      else if usingFound ∧ u.type = TokenType.IDENTIFIER then
        callParamScan lineNo rest usingFound (ps ++ [pyUpperStr u.value])
      else callParamScan lineNo rest usingFound ps
    else ps

/-- CobolParser._extract_program_calls: a CALL keyword followed by a Literal
gives a static call with the literal value as target; followed by an
Identifier it gives a dynamic call with the uppercased name; any other
follower (or a falsy empty target) drops the call silently. -/
def extractCalls : List Token → List ProgramCall
  | [] => []
  | t :: rest =>
    (if t.type = TokenType.KEYWORD ∧ pyUpperStr t.value = "CALL" then
      let tgt : Option (String × Bool) :=
        match rest with
        | u :: _ =>
          if u.type = TokenType.LITERAL then some (u.value, false)
          else if u.type = TokenType.IDENTIFIER then some (pyUpperStr u.value, true)
          else none
        | [] => none
      match tgt with
      | some (target, dyn) =>
        if target ≠ "" then
          [⟨target, dyn, callParamScan t.line rest.tail false [], (t.line, t.column)⟩]
        else []
      | none => []
    else []) ++ extractCalls rest

/-- Skip of the outer index past the next token whose uppercase value is
END-EXEC (at the EXEC token the skip starts one position later, since EXEC is
not END-EXEC); the element after that sentinel, or the empty list when there
is none, is where the outer loop resumes. -/
def skipPastEndExec : List Token → List Token
  | [] => []
  | t :: rest => if pyUpperStr t.value = "END-EXEC" then rest else skipPastEndExec rest

/-- The block scan shared by the three sublanguage branches of
`CobolParser._extract_resources` (SQL, CICS and MQ differ only in their
trigger lists): until a token whose uppercase value is END-EXEC, the first
Keyword token supplies the operation, and a Keyword token that is one of the
triggers makes the following token (uppercased) the resource name. -/
def resourceScan (triggers : List String) : List Token → Option String → Option String →
    Option String × Option String
  | [], op, nm => (op, nm)
  | u :: rest, op, nm =>
    if pyUpperStr u.value = "END-EXEC" then (op, nm)
    else if u.type = TokenType.KEYWORD then
      let op := match op with | none => some (pyUpperStr u.value) | some o => some o
      let nm :=
        if triggers.contains (pyUpperStr u.value) then
          match rest with
          | v :: _ => some (pyUpperStr v.value)
          | [] => nm
        else nm
      resourceScan triggers rest op nm
    else resourceScan triggers rest op nm

/-- The loop of `CobolParser._extract_resources`, on fuel (each step consumes
at least one token, so fuel `length + 1` never runs out). On an EXEC keyword
with a following token, that token names the sublanguage; a Resource is
emitted when both the sublanguage name and an operation are nonempty, with
name UNKNOWN when unresolved; the loop then resumes past the next END-EXEC.
A final token with nothing after it can never start an EXEC block, so the
singleton case emits nothing. -/
def extractResourcesFuel : Nat → List Token → List Resource
  | 0, _ => []
  | _ + 1, [] => []
  | _ + 1, [_] => []
  | fuel + 1, t :: u :: body =>
    if t.type = TokenType.KEYWORD ∧ pyUpperStr t.value = "EXEC" then
      let rtype := pyUpperStr u.value
      let scan :=
        if rtype = "SQL" then resourceScan ["FROM", "INTO", "UPDATE", "TABLE"] body none none
        else if rtype = "CICS" then resourceScan ["PROGRAM", "TRANSID", "QUEUE", "FILE"] body none none
        else if rtype = "MQ" then resourceScan ["QNAME", "QUEUE"] body none none
        else (none, none)
      (if rtype ≠ "" ∧ scan.1.getD "" ≠ "" then
        [⟨scan.2.getD "UNKNOWN", rtype, scan.1.getD "", (t.line, t.column)⟩]
      else []) ++ extractResourcesFuel fuel (skipPastEndExec (u :: body))
    else extractResourcesFuel fuel (u :: body)

/-- CobolParser._extract_resources. -/
def extractResources (tokens : List Token) : List Resource :=
  extractResourcesFuel (tokens.length + 1) tokens

/-- CobolParser._extract_copybooks: COPY followed by an Identifier or Literal
adds the uppercased name to the copybook set. -/
def extractCopybooks : List Token → List String → List String
  | [], acc => acc
  | t :: rest, acc =>
    let acc :=
      if t.type = TokenType.KEYWORD ∧ pyUpperStr t.value = "COPY" then
        match rest with
        | u :: _ =>
          if u.type = TokenType.IDENTIFIER ∨ u.type = TokenType.LITERAL then
            addSet acc (pyUpperStr u.value)
          else acc
        | [] => acc
      else acc
    extractCopybooks rest acc

/-- The inner scan of the EXEC CICS branch of `CobolParser._extract_maps`:
until a token whose uppercase value is END-EXEC, a SEND or RECEIVE value
followed by MAP and a further token adds that token (uppercased) to the map
set; the flag records whether any map was found. -/
def cicsMapScan : List Token → List String → Bool → List String × Bool
  | [], acc, found => (acc, found)
  | u :: rest, acc, found =>
    if pyUpperStr u.value = "END-EXEC" then (acc, found)
    else
      match rest with
      | v :: w :: _ =>
        if (pyUpperStr u.value = "SEND" ∨ pyUpperStr u.value = "RECEIVE") ∧ pyUpperStr v.value = "MAP" then
          cicsMapScan rest (addSet acc (pyUpperStr w.value)) true
        else cicsMapScan rest acc found
      | _ => cicsMapScan rest acc found

/-- The loop of `CobolParser._extract_maps`, on fuel. The bare pattern needs a
SEND or RECEIVE keyword token followed by a Keyword token whose value is MAP
(the reserved-word list has no MAP, so the tokenizer classifies MAP as an
Identifier and this branch never fires on tokenizer output); the EXEC CICS
pattern compares values only and, when a map was found, resumes past the next
END-EXEC. -/
def extractMapsFuel : Nat → List Token → List String → List String
  | 0, _, acc => acc
  | _ + 1, [], acc => acc
  | fuel + 1, t :: rest, acc =>
    if t.type == TokenType.KEYWORD && (pyUpperStr t.value == "SEND" || pyUpperStr t.value == "RECEIVE") &&
       (match rest with
        | u :: _ :: _ => u.type == TokenType.KEYWORD && pyUpperStr u.value == "MAP"
        | _ => false) then
      match rest with
      | _ :: w :: _ => extractMapsFuel fuel rest (addSet acc (pyUpperStr w.value))
      | _ => extractMapsFuel fuel rest acc
    else if t.type == TokenType.KEYWORD && pyUpperStr t.value == "EXEC" &&
            (match rest with | u :: _ => pyUpperStr u.value == "CICS" | [] => false) then
      let (acc2, found) := cicsMapScan rest.tail acc false
      if found then extractMapsFuel fuel (skipPastEndExec rest) acc2
      else extractMapsFuel fuel rest acc2
    else extractMapsFuel fuel rest acc

/-- CobolParser._extract_maps. -/
def extractMaps (tokens : List Token) : List String :=
  extractMapsFuel (tokens.length + 1) tokens []

/-- CobolParser.parse / _parse_program on the source text: tokenize, then run
the five extraction passes. The program name is the source file base name
without extension, derived by the caller from the path; reading the file is
IO and outside the embedding, so the name and text are taken as arguments. -/
def parseProgram (program_name source_code : String) : CobolProgram :=
  let tokens := tokenize source_code
  let (divs, items) := parseDivisions tokens
  { name := program_name
    source_path := ""
    divisions := divs
    data_items := items
    files := extractFileReferences tokens
    calls := extractCalls tokens
    resources := extractResources tokens
    called_by := []
    maps_used := extractMaps tokens
    copybooks := extractCopybooks tokens [] }

/-- State owned by `CobolAnalyzer`: the program registry, the call graph and
the resource-usage index. -/
structure AnalyzerState where
  analyzed_programs : List (String × CobolProgram)
  call_graph : List (String × List String)
  resource_usage : List (String × List String)
deriving DecidableEq

/-- The fresh analyzer state. -/
def initialAnalyzerState : AnalyzerState :=
  ⟨[], [], []⟩

/-- The per-call update of `CobolAnalyzer.analyze_program`: add the target to
the callee set of the caller, then pre-register the target with an empty
callee set when it has no node yet. -/
def addCallEdge (cg : List (String × List String)) (caller target : String) :
    List (String × List String) :=
  let cg := updateAssoc cg caller (addSet ((lookupAssoc cg caller).getD []) target)
  if hasKey cg target then cg else cg ++ [(target, [])]

/-- The per-resource update of `CobolAnalyzer.analyze_program`: create the
"type:name" key when absent, then add the program name to its set. -/
def addResourceUse (ru : List (String × List String)) (key pname : String) :
    List (String × List String) :=
  let ru := if hasKey ru key then ru else ru ++ [(key, [])]
  updateAssoc ru key (addSet ((lookupAssoc ru key).getD []) pname)

/-- CobolAnalyzer.analyze_program: parse, store the program under its name in
the registry (replacing any previous entry), reset the callee set of the
program and rebuild it from the parsed calls with forward pre-registration of
targets, and add the program to the resource index entry of each parsed
resource. -/
def analyzeProgram (st : AnalyzerState) (program_name source_code : String) : AnalyzerState :=
  let prog := parseProgram program_name source_code
  { analyzed_programs := updateAssoc st.analyzed_programs prog.name prog
    call_graph :=
      prog.calls.foldl (fun cg call => addCallEdge cg prog.name call.target)
        (updateAssoc st.call_graph prog.name [])
    resource_usage :=
      prog.resources.foldl (fun ru r => addResourceUse ru (r.type ++ ":" ++ r.name) prog.name)
        st.resource_usage }

/-- A sequence of analyze_program calls from the fresh state; each list entry
is a derived program name and source text. -/
def analyzeRun (runs : List (String × String)) : AnalyzerState :=
  runs.foldl (fun st r => analyzeProgram st r.1 r.2) initialAnalyzerState

/-- CobolAnalyzer.find_caller_programs: all callers whose callee set contains
the program name. -/
def findCallerPrograms (st : AnalyzerState) (program_name : String) : List String :=
  (st.call_graph.filter (fun e => e.2.contains program_name)).map (fun e => e.1)

/-- CobolAnalyzer.find_called_programs: direct lookup, empty when absent. -/
def findCalledPrograms (st : AnalyzerState) (program_name : String) : List String :=
  (lookupAssoc st.call_graph program_name).getD []

/-! ### Lemmas about the association-list dictionary and set operations -/

theorem lookupAssoc_update_self {α : Type} (l : List (String × α)) (k : String) (v : α) :
    lookupAssoc (updateAssoc l k v) k = some v := by
  induction l with
  | nil => simp [updateAssoc, lookupAssoc]
  | cons e rest ih =>
    obtain ⟨k0, v0⟩ := e
    by_cases h : k0 = k
    · simp [updateAssoc, lookupAssoc, h]
    · simp [updateAssoc, lookupAssoc, h, ih]

theorem lookupAssoc_update_ne {α : Type} (l : List (String × α)) (k k2 : String) (v : α)
    (h : k2 ≠ k) : lookupAssoc (updateAssoc l k v) k2 = lookupAssoc l k2 := by
  induction l with
  | nil => simp [updateAssoc, lookupAssoc, Ne.symm h]
  | cons e rest ih =>
    obtain ⟨k0, v0⟩ := e
    by_cases h0 : k0 = k
    · subst h0
      simp [updateAssoc, lookupAssoc, Ne.symm h]
    · simp [updateAssoc, lookupAssoc, h0, ih]

theorem hasKey_update_of {α : Type} (l : List (String × α)) (k k2 : String) (v : α)
    (h : hasKey l k2 = true) : hasKey (updateAssoc l k v) k2 = true := by
  by_cases hk : k2 = k
  · subst hk
    simp [hasKey, lookupAssoc_update_self]
  · simpa [hasKey, lookupAssoc_update_ne _ _ _ _ hk] using h

theorem hasKey_update_self {α : Type} (l : List (String × α)) (k : String) (v : α) :
    hasKey (updateAssoc l k v) k = true := by
  simp [hasKey, lookupAssoc_update_self]

theorem lookupAssoc_append_left {α : Type} (l l2 : List (String × α)) (k : String) (v : α)
    (h : lookupAssoc l k = some v) : lookupAssoc (l ++ l2) k = some v := by
  induction l with
  | nil => simp [lookupAssoc] at h
  | cons e rest ih =>
    obtain ⟨k0, v0⟩ := e
    by_cases h0 : k0 = k
    · simp_all [lookupAssoc]
    · simp_all [lookupAssoc]

theorem hasKey_append_of {α : Type} (l l2 : List (String × α)) (k : String)
    (h : hasKey l k = true) : hasKey (l ++ l2) k = true := by
  simp only [hasKey, Option.isSome_iff_exists] at h ⊢
  obtain ⟨v, hv⟩ := h
  exact ⟨v, lookupAssoc_append_left l l2 k v hv⟩

theorem hasKey_append_singleton {α : Type} (l : List (String × α)) (k : String) (v : α) :
    hasKey (l ++ [(k, v)]) k = true := by
  induction l with
  | nil => simp [hasKey, lookupAssoc]
  | cons e rest ih =>
    obtain ⟨k0, v0⟩ := e
    by_cases h0 : k0 = k <;> simp_all [hasKey, lookupAssoc]

theorem addSet_mem_of (l : List String) (x y : String) (h : x ∈ l) : x ∈ addSet l y := by
  unfold addSet
  split <;> simp [h]

/-! ### Lemmas about the call-graph and resource-index updates -/

theorem addCallEdge_hasKey_of (cg : List (String × List String)) (c tgt k : String)
    (h : hasKey cg k = true) : hasKey (addCallEdge cg c tgt) k = true := by
  simp only [addCallEdge]
  have h1 : hasKey (updateAssoc cg c (addSet ((lookupAssoc cg c).getD []) tgt)) k = true :=
    hasKey_update_of _ _ _ _ h
  split
  · exact h1
  · exact hasKey_append_of _ _ _ h1

theorem addCallEdge_hasKey_target (cg : List (String × List String)) (c tgt : String) :
    hasKey (addCallEdge cg c tgt) tgt = true := by
  simp only [addCallEdge]
  split
  · assumption
  · exact hasKey_append_singleton _ _ _

theorem foldl_addCallEdge_hasKey_of (calls : List ProgramCall) (nm k : String)
    (cg : List (String × List String)) (h : hasKey cg k = true) :
    hasKey (calls.foldl (fun cg call => addCallEdge cg nm call.target) cg) k = true := by
  induction calls generalizing cg with
  | nil => simpa using h
  | cons c rest ih => exact ih _ (addCallEdge_hasKey_of _ _ _ _ h)

theorem foldl_addCallEdge_hasKey_target (calls : List ProgramCall) (nm : String)
    (cg : List (String × List String)) (c : ProgramCall) (hc : c ∈ calls) :
    hasKey (calls.foldl (fun cg call => addCallEdge cg nm call.target) cg) c.target = true := by
  induction calls generalizing cg with
  | nil => simp at hc
  | cons c0 rest ih =>
    rcases List.mem_cons.mp hc with h | h
    · subst h
      exact foldl_addCallEdge_hasKey_of rest nm c.target _ (addCallEdge_hasKey_target _ _ _)
    · exact ih _ h

theorem analyzeProgram_hasKey_of (st : AnalyzerState) (nm src k : String)
    (h : hasKey st.call_graph k = true) :
    hasKey (analyzeProgram st nm src).call_graph k = true := by
  simp only [analyzeProgram]
  exact foldl_addCallEdge_hasKey_of _ _ _ _ (hasKey_update_of _ _ _ _ h)

theorem analyzeProgram_hasKey_target (st : AnalyzerState) (nm src : String)
    (c : ProgramCall) (hc : c ∈ (parseProgram nm src).calls) :
    hasKey (analyzeProgram st nm src).call_graph c.target = true := by
  simp only [analyzeProgram]
  exact foldl_addCallEdge_hasKey_target _ _ _ _ hc

theorem foldlRun_hasKey_of (runs : List (String × String)) (st : AnalyzerState) (k : String)
    (h : hasKey st.call_graph k = true) :
    hasKey ((runs.foldl (fun st r => analyzeProgram st r.1 r.2) st).call_graph) k = true := by
  induction runs generalizing st with
  | nil => simpa using h
  | cons r rest ih => exact ih _ (analyzeProgram_hasKey_of _ _ _ _ h)

theorem foldlRun_hasKey_target (runs : List (String × String)) (st : AnalyzerState)
    (nm src t : String) (hmem : (nm, src) ∈ runs)
    (ht : t ∈ (parseProgram nm src).calls.map ProgramCall.target) :
    hasKey ((runs.foldl (fun st r => analyzeProgram st r.1 r.2) st).call_graph) t = true := by
  induction runs generalizing st with
  | nil => simp at hmem
  | cons r rest ih =>
    rcases List.mem_cons.mp hmem with h | h
    · subst h
      obtain ⟨c, hc, rfl⟩ := List.mem_map.mp ht
      exact foldlRun_hasKey_of rest _ _ (analyzeProgram_hasKey_target st nm src c hc)
    · exact ih _ h

/-! ### Lemmas about resource-index membership preservation -/

theorem addResourceUse_mem_of (ru : List (String × List String)) (key pname k p : String)
    (h : p ∈ (lookupAssoc ru k).getD []) :
    p ∈ (lookupAssoc (addResourceUse ru key pname) k).getD [] := by
  simp only [addResourceUse]
  have hsome : ∃ s, lookupAssoc ru k = some s ∧ p ∈ s := by
    cases hl : lookupAssoc ru k with
    | none => rw [hl] at h; simp at h
    | some s => exact ⟨s, rfl, by rwa [hl] at h⟩
  obtain ⟨s, hs, hp⟩ := hsome
  have hstep : lookupAssoc (if hasKey ru key = true then ru else ru ++ [(key, [])]) k = some s := by
    split
    · exact hs
    · exact lookupAssoc_append_left _ _ _ _ hs
  by_cases hk : k = key
  · subst hk
    rw [lookupAssoc_update_self]
    simp only [Option.getD_some]
    have : (lookupAssoc (if hasKey ru k = true then ru else ru ++ [(k, [])]) k).getD [] = s := by
      rw [hstep]; rfl
    rw [this]
    exact addSet_mem_of _ _ _ hp
  · rw [lookupAssoc_update_ne _ _ _ _ hk, hstep]
    simpa using hp

theorem foldl_addResourceUse_mem_of (rs : List Resource) (nm k p : String)
    (ru : List (String × List String)) (h : p ∈ (lookupAssoc ru k).getD []) :
    p ∈ (lookupAssoc (rs.foldl (fun ru r => addResourceUse ru (r.type ++ ":" ++ r.name) nm) ru) k).getD [] := by
  induction rs generalizing ru with
  | nil => simpa using h
  | cons r rest ih => exact ih _ (addResourceUse_mem_of _ _ _ _ _ h)

theorem analyzeProgram_resource_mem_of (st : AnalyzerState) (nm src k p : String)
    (h : p ∈ (lookupAssoc st.resource_usage k).getD []) :
    p ∈ (lookupAssoc (analyzeProgram st nm src).resource_usage k).getD [] := by
  simp only [analyzeProgram]
  exact foldl_addResourceUse_mem_of _ _ _ _ _ h

/-- C6: for the two programs ORDERPROC (containing CALL "BILLING") and
BILLING (containing CALL "ORDERPROC"), after both are analyzed the caller
query returns exactly the other program for each, in both analysis orders. -/
theorem c6_call_graph_symmetric_scenario :
    (findCallerPrograms (analyzeRun
        [("ORDERPROC", "       CALL \"BILLING\""), ("BILLING", "       CALL \"ORDERPROC\"")])
      "BILLING" = ["ORDERPROC"]) ∧
    (findCallerPrograms (analyzeRun
        [("ORDERPROC", "       CALL \"BILLING\""), ("BILLING", "       CALL \"ORDERPROC\"")])
      "ORDERPROC" = ["BILLING"]) ∧
    (findCallerPrograms (analyzeRun
        [("BILLING", "       CALL \"ORDERPROC\""), ("ORDERPROC", "       CALL \"BILLING\"")])
      "BILLING" = ["ORDERPROC"]) ∧
    (findCallerPrograms (analyzeRun
        [("BILLING", "       CALL \"ORDERPROC\""), ("ORDERPROC", "       CALL \"BILLING\"")])
      "ORDERPROC" = ["BILLING"]) := by
  refine ⟨?_, ?_, ?_, ?_⟩ <;> decide

/-- C7: analyze_program never removes a key from the call graph, and after
any sequence of analyze_program calls every call target that appeared in the
calls list of an analyzed program is a key of the call graph (forward nodes
are pre-registered even when that target is never analyzed itself). -/
theorem c7_call_graph_key_invariant :
    (∀ (st : AnalyzerState) (nm src k : String),
      hasKey st.call_graph k = true → hasKey (analyzeProgram st nm src).call_graph k = true) ∧
    (∀ (runs : List (String × String)) (nm src t : String),
      (nm, src) ∈ runs → t ∈ (parseProgram nm src).calls.map ProgramCall.target →
      hasKey (analyzeRun runs).call_graph t = true) := by
  constructor
  · exact fun st nm src k h => analyzeProgram_hasKey_of st nm src k h
  · intro runs nm src t hmem ht
    exact foldlRun_hasKey_target runs initialAnalyzerState nm src t hmem ht

/-- Witness for C7 at a concrete run: analyzing a single program P whose
source calls A leaves A as a pre-registered key of the call graph. -/
theorem c7_call_graph_key_invariant_witness :
    (("P", "       CALL \"A\"") ∈ [("P", "       CALL \"A\"")]) ∧
    ("A" ∈ (parseProgram "P" "       CALL \"A\"").calls.map ProgramCall.target) ∧
    hasKey (analyzeRun [("P", "       CALL \"A\"")]).call_graph "A" = true :=
  ⟨by decide, by decide,
    c7_call_graph_key_invariant.2 [("P", "       CALL \"A\"")] "P" "       CALL \"A\"" "A"
      (by decide) (by decide)⟩

/-- C4 counterexample: analyzing P with a source containing CALL "A" puts the
edge P to A in the call graph; re-analyzing P with an empty source (same
derived name) resets the outgoing callee set of P, so the edge from the first
analysis is retracted, contradicting the claim that re-analysis retracts
nothing from the graph. -/
theorem c4_reanalysis_counterexample :
    ("A" ∈ (lookupAssoc (analyzeProgram initialAnalyzerState "P" "       CALL \"A\"").call_graph
      "P").getD []) ∧
    ¬ ("A" ∈ (lookupAssoc (analyzeProgram
        (analyzeProgram initialAnalyzerState "P" "       CALL \"A\"") "P" "").call_graph
      "P").getD []) := by
  constructor
  · decide
  · decide

/-- C4 amended: re-analysis under the same derived name replaces the registry
entry and resets that program's outgoing callee set (edges survive only if
re-observed), but it never removes a key from the call graph and never
retracts a membership from the resource-usage index. -/
theorem c4_reanalysis_frame :
    ∀ (st : AnalyzerState) (nm src k rk p : String),
      (lookupAssoc (analyzeProgram st nm src).analyzed_programs nm = some (parseProgram nm src)) ∧
      (hasKey st.call_graph k = true → hasKey (analyzeProgram st nm src).call_graph k = true) ∧
      (p ∈ (lookupAssoc st.resource_usage rk).getD [] →
        p ∈ (lookupAssoc (analyzeProgram st nm src).resource_usage rk).getD []) := by
  intro st nm src k rk p
  refine ⟨?_, ?_, ?_⟩
  · simp only [analyzeProgram]
    exact lookupAssoc_update_self _ _ _
  · exact analyzeProgram_hasKey_of st nm src k
  · exact analyzeProgram_resource_mem_of st nm src rk p

/-- Witness for C4 at a concrete state: after analyzing R (which uses SQL
table TBL), re-analyzing under name Q preserves the key R in the call graph
and the membership of R in the resource index entry SQL:TBL, and the registry
entry for Q is the parse of the new source. -/
theorem c4_reanalysis_frame_witness :
    (lookupAssoc (analyzeProgram
        (analyzeProgram initialAnalyzerState "R" "       EXEC SQL DELETE FROM TBL END-EXEC")
        "Q" "").analyzed_programs "Q" = some (parseProgram "Q" "")) ∧
    hasKey (analyzeProgram
        (analyzeProgram initialAnalyzerState "R" "       EXEC SQL DELETE FROM TBL END-EXEC")
        "Q" "").call_graph "R" = true ∧
    "R" ∈ (lookupAssoc (analyzeProgram
        (analyzeProgram initialAnalyzerState "R" "       EXEC SQL DELETE FROM TBL END-EXEC")
        "Q" "").resource_usage "SQL:TBL").getD [] :=
  ⟨(c4_reanalysis_frame _ "Q" "" "R" "SQL:TBL" "R").1,
   (c4_reanalysis_frame _ "Q" "" "R" "SQL:TBL" "R").2.1 (by decide),
   (c4_reanalysis_frame _ "Q" "" "R" "SQL:TBL" "R").2.2 (by decide)⟩

/-! ### Lemmas about the resource-extraction scan -/

theorem resourceScan_no_keyword (triggers : List String) (l : List Token)
    (nm : Option String) (h : ∀ u ∈ l, u.type ≠ TokenType.KEYWORD) :
    (resourceScan triggers l none nm).1 = none := by
  induction l generalizing nm with
  | nil => simp [resourceScan]
  | cons u rest ih =>
    simp only [resourceScan]
    split
    · rfl
    · split
      · exact absurd (by assumption) (h u (List.mem_cons_self u rest))
      · exact ih nm (fun v hv => h v (List.mem_cons_of_mem u hv))

theorem skipPastEndExec_eq_nil (l : List Token)
    (h : ∀ u ∈ l, pyUpperStr u.value ≠ "END-EXEC") :
    skipPastEndExec l = [] := by
  induction l with
  | nil => rfl
  | cons u rest ih =>
    rw [skipPastEndExec]
    split
    · exact absurd (by assumption) (h u (List.mem_cons_self u rest))
    · exact ih (fun v hv => h v (List.mem_cons_of_mem u hv))

theorem skipPastEndExec_length_le (l : List Token) :
    (skipPastEndExec l).length ≤ l.length := by
  induction l with
  | nil => simp [skipPastEndExec]
  | cons u rest ih =>
    rw [skipPastEndExec]
    split
    · simp
    · exact Nat.le_trans ih (Nat.le_succ _)

theorem extractResourcesFuel_nil (fuel : Nat) : extractResourcesFuel fuel [] = [] := by
  cases fuel <;> rfl

theorem length_ite_singleton {α : Type} (c : Prop) [Decidable c] (x : α) :
    (if c then [x] else []).length ≤ 1 := by
  split <;> simp

theorem extractResourcesFuel_length_le (fuel : Nat) :
    ∀ ts : List Token, (extractResourcesFuel fuel ts).length ≤ ts.length := by
  induction fuel with
  | zero => intro ts; simp [extractResourcesFuel]
  | succ fuel ih =>
    intro ts
    match ts with
    | [] => simp [extractResourcesFuel]
    | [t] => simp [extractResourcesFuel]
    | t :: u :: body =>
      simp only [extractResourcesFuel]
      have hskip : (skipPastEndExec (u :: body)).length ≤ body.length := by
        rw [skipPastEndExec]
        split
        · exact Nat.le_refl _
        · exact skipPastEndExec_length_le body
      have h1 : (extractResourcesFuel fuel (skipPastEndExec (u :: body))).length ≤ body.length :=
        Nat.le_trans (ih _) hskip
      have h2 := ih (u :: body)
      split
      · rw [List.length_append]
        simp only [List.length_cons]
        refine Nat.le_trans (Nat.add_le_add (length_ite_singleton _ _) h1) ?_
        omega
      · simp only [List.length_cons] at h2 ⊢
        omega

/-! ### Lemmas about the per-line scanner -/

theorem matchWhitespace_pos {cs : List Char} {n : Nat} (h : matchWhitespace cs = some n) :
    1 ≤ n := by
  simp only [matchWhitespace] at h
  split at h
  · simp at h
  · rename_i hk
    obtain rfl : _ = n := Option.some.inj h
    omega

theorem dollarView_cons_pos {c : Char} {r : List Char} {s : List Char} (hc : c ≠ '\n')
    (h : dollarView (c :: r) = some s) : 1 ≤ s.length := by
  simp only [dollarView] at h
  split at h
  · split at h
    · rename_i hmem hcond
      obtain rfl : (c :: r).dropLast = s := Option.some.inj h
      match r with
      | [] =>
        simp at hmem
        exact absurd hmem.symm hc
      | x :: xs => simp
    · simp at h
  · obtain rfl : c :: r = s := Option.some.inj h
    simp

theorem matchComment_pos {cs : List Char} {n : Nat} (h : matchComment cs = some n) :
    1 ≤ n := by
  unfold matchComment at h
  split at h
  · rename_i tail
    cases hd : dollarView ('*' :: tail) with
    | none => rw [hd] at h; simp at h
    | some s =>
      rw [hd] at h
      simp only [Option.map_some'] at h
      have hs : 1 ≤ s.length := dollarView_cons_pos (by decide) hd
      have hn : s.length = n := Option.some.inj h
      omega
  · split at h
    · split at h
      · simp only [Option.some.injEq] at h
        omega
      · simp at h
    · simp at h
  · simp at h

theorem matchStringLit_pos {cs : List Char} {n : Nat} {mid : List Char}
    (h : matchStringLit cs = some (n, mid)) : 1 ≤ n := by
  simp only [matchStringLit] at h
  split at h
  · split at h
    · simp only [Option.some.injEq, Prod.mk.injEq] at h
      omega
    · simp at h
  · simp at h

theorem matchNumber_pos {cs : List Char} {n : Nat} (h : matchNumber cs = some n) :
    1 ≤ n := by
  simp only [matchNumber] at h
  split at h
  · simp at h
  · rename_i hd1
    split at h
    · split at h
      · simp only [Option.some.injEq] at h
        omega
      · simp only [Option.some.injEq] at h
        omega
    · simp only [Option.some.injEq] at h
      omega

theorem matchIdentifier_pos {cs : List Char} {n : Nat} (h : matchIdentifier cs = some n) :
    1 ≤ n := by
  unfold matchIdentifier at h
  split at h
  · split at h
    · simp only [Option.some.injEq] at h
      omega
    · simp at h
  · simp at h

theorem matchOperator_pos {cs : List Char} {n : Nat} (h : matchOperator cs = some n) :
    1 ≤ n := by
  unfold matchOperator at h
  split at h
  · split at h
    · simp only [Option.some.injEq] at h
      omega
    · simp at h
  · simp at h

theorem matchPunct_pos {cs : List Char} {n : Nat} (h : matchPunct cs = some n) :
    1 ≤ n := by
  unfold matchPunct at h
  split at h
  · split at h
    · simp only [Option.some.injEq] at h
      omega
    · simp at h
  · simp at h

theorem matchSpecial_pos {cs : List Char} {n : Nat} (h : matchSpecial cs = some n) :
    1 ≤ n := by
  unfold matchSpecial at h
  split at h
  · split at h
    · simp only [Option.some.injEq] at h
      omega
    · simp at h
  · simp at h

theorem scanToken_pos (lineNo col : Nat) (cs : List Char) :
    1 ≤ (scanToken lineNo col cs).2 := by
  unfold scanToken
  cases h1 : matchWhitespace cs with
  | some n => simpa using matchWhitespace_pos h1
  | none =>
  cases h2 : matchComment cs with
  | some n => simpa using matchComment_pos h2
  | none =>
  cases h3 : matchStringLit cs with
  | some p =>
    obtain ⟨n, mid⟩ := p
    simpa using matchStringLit_pos h3
  | none =>
  cases h4 : matchNumber cs with
  | some n => simpa using matchNumber_pos h4
  | none =>
  cases h5 : matchIdentifier cs with
  | some n => simpa using matchIdentifier_pos h5
  | none =>
  cases h6 : matchOperator cs with
  | some n => simpa using matchOperator_pos h6
  | none =>
  cases h7 : matchPunct cs with
  | some n => simpa using matchPunct_pos h7
  | none =>
  cases h8 : matchSpecial cs with
  | some n => simpa using matchSpecial_pos h8
  | none =>
  cases cs <;> simp

theorem matchComment_star (rest : List Char) (h : '\n' ∉ rest) :
    matchComment ('*' :: rest) = some (rest.length + 1) := by
  have h2 : '\n' ∉ '*' :: rest := by simp [h]
  simp [matchComment, dollarView, h2]

theorem matchWhitespace_star (rest : List Char) :
    matchWhitespace ('*' :: rest) = none := by
  have hsp : isPySpace '*' = false := by decide
  simp [matchWhitespace, List.takeWhile_cons, hsp]

theorem scanToken_star (lineNo col : Nat) (rest : List Char) (h : '\n' ∉ rest) :
    scanToken lineNo col ('*' :: rest) =
      (some ⟨TokenType.COMMENT, String.mk ('*' :: rest), lineNo, col⟩, rest.length + 1) := by
  unfold scanToken
  rw [matchWhitespace_star, matchComment_star rest h]
  simp [List.take_succ_cons, List.take_length]

theorem classifyWord_ne_operator (w : String) : classifyWord w ≠ TokenType.OPERATOR := by
  unfold classifyWord
  split
  · simp
  · split <;> simp

theorem scanToken_op_not_star (lineNo col : Nat) (cs : List Char) (t : Token) (n : Nat)
    (hnl : '\n' ∉ cs) (h : scanToken lineNo col cs = (some t, n))
    (hop : t.type = TokenType.OPERATOR) : t.value ≠ "*" := by
  unfold scanToken at h
  cases h1 : matchWhitespace cs with
  | some k => rw [h1] at h; simp at h
  | none =>
  rw [h1] at h
  cases h2 : matchComment cs with
  | some k =>
    rw [h2] at h
    simp only [Prod.mk.injEq, Option.some.injEq] at h
    rw [← h.1] at hop
    simp at hop
  | none =>
  rw [h2] at h
  cases h3 : matchStringLit cs with
  | some p =>
    obtain ⟨k, mid⟩ := p
    rw [h3] at h
    simp only [Prod.mk.injEq, Option.some.injEq] at h
    rw [← h.1] at hop
    simp at hop
  | none =>
  rw [h3] at h
  cases h4 : matchNumber cs with
  | some k =>
    rw [h4] at h
    simp only [Prod.mk.injEq, Option.some.injEq] at h
    rw [← h.1] at hop
    simp at hop
  | none =>
  rw [h4] at h
  cases h5 : matchIdentifier cs with
  | some k =>
    rw [h5] at h
    simp only [Prod.mk.injEq, Option.some.injEq] at h
    rw [← h.1] at hop
    simp only at hop
    exact absurd hop (classifyWord_ne_operator _)
  | none =>
  rw [h5] at h
  cases h6 : matchOperator cs with
  | some k =>
    rw [h6] at h
    simp only [Prod.mk.injEq, Option.some.injEq] at h
    unfold matchOperator at h6
    split at h6
    · rename_i c rest2
      split at h6
      · have hk : (1 : Nat) = k := Option.some.inj h6
        by_cases hc : c = '*'
        · subst hc
          have hrest : '\n' ∉ rest2 := by
            intro hx
            exact hnl (List.mem_cons_of_mem _ hx)
          rw [matchComment_star rest2 hrest] at h2
          simp at h2
        · rw [← h.1]
          simp only
          rw [← hk]
          intro hval
          simp only [List.take_succ_cons, List.take_zero] at hval
          have hmk : String.mk [c] = String.mk ['*'] := hval
          injection hmk with h7
          simp at h7
          exact hc h7
      · simp at h6
    · simp at h6
  | none =>
  rw [h6] at h
  cases h7 : matchPunct cs with
  | some k =>
    rw [h7] at h
    simp only [Prod.mk.injEq, Option.some.injEq] at h
    rw [← h.1] at hop
    simp at hop
  | none =>
  rw [h7] at h
  cases h8 : matchSpecial cs with
  | some k =>
    rw [h8] at h
    simp only [Prod.mk.injEq, Option.some.injEq] at h
    rw [← h.1] at hop
    simp at hop
  | none =>
  rw [h8] at h
  match cs with
  | [] => simp at h
  | c :: rest2 =>
    simp only [Prod.mk.injEq, Option.some.injEq] at h
    rw [← h.1] at hop
    simp at hop

theorem tokenizeLineAux_nil (lineNo fuel col : Nat) :
    tokenizeLineAux lineNo fuel [] col = [] := by
  cases fuel <;> rfl

theorem tokenizeLineAux_op_not_star (lineNo : Nat) :
    ∀ (fuel : Nat) (cs : List Char) (col : Nat), '\n' ∉ cs →
      ∀ t ∈ tokenizeLineAux lineNo fuel cs col,
        t.type = TokenType.OPERATOR → t.value ≠ "*" := by
  intro fuel
  induction fuel with
  | zero =>
    intro cs col hnl t ht
    simp [tokenizeLineAux] at ht
  | succ fuel ih =>
    intro cs col hnl t ht hop
    match cs with
    | [] => simp [tokenizeLineAux] at ht
    | c :: rest =>
      rw [tokenizeLineAux] at ht
      have hsub : '\n' ∉ (c :: rest).drop (scanToken lineNo col (c :: rest)).2 := by
        intro hx
        exact hnl (List.drop_subset _ _ hx)
      cases hscan : scanToken lineNo col (c :: rest) with
      | mk tk k =>
        rw [hscan] at ht hsub
        cases tk with
        | some t0 =>
          simp only [List.mem_cons] at ht
          rcases ht with rfl | ht
          · exact scanToken_op_not_star lineNo col (c :: rest) t k hnl hscan hop
          · exact ih _ _ hsub t ht hop
        | none =>
          exact ih _ _ hsub t ht hop

theorem tokenizeLineAux_length_le (lineNo : Nat) :
    ∀ (fuel : Nat) (cs : List Char) (col : Nat),
      (tokenizeLineAux lineNo fuel cs col).length ≤ cs.length := by
  intro fuel
  induction fuel with
  | zero => intro cs col; simp [tokenizeLineAux]
  | succ fuel ih =>
    intro cs col
    match cs with
    | [] => simp [tokenizeLineAux]
    | c :: rest =>
      rw [tokenizeLineAux]
      have hpos := scanToken_pos lineNo col (c :: rest)
      cases hscan : scanToken lineNo col (c :: rest) with
      | mk tk k =>
        rw [hscan] at hpos
        simp only at hpos
        have hrec := ih ((c :: rest).drop k) (col + k)
        have hdrop : ((c :: rest).drop k).length = (c :: rest).length - k := by
          simp [List.length_drop]
        cases tk with
        | some t0 =>
          simp only [List.length_cons]
          rw [hdrop] at hrec
          simp only [List.length_cons] at hrec
          omega
        | none =>
          simp only [List.length_cons]
          rw [hdrop] at hrec
          simp only [List.length_cons] at hrec
          omega

theorem pySplitLinesAux_no_newline : ∀ (cs acc : List Char), '\n' ∉ acc →
    ∀ l ∈ pySplitLinesAux cs acc, '\n' ∉ l := by
  intro cs acc
  induction cs, acc using pySplitLinesAux.induct with
  | case1 acc =>
    rename_i hemp
    intro hacc l hl
    simp [pySplitLinesAux, hemp] at hl
  | case2 acc =>
    rename_i hemp
    intro hacc l hl
    simp only [pySplitLinesAux, if_neg hemp, List.mem_singleton] at hl
    subst hl
    simpa using hacc
  | case3 tail acc ih =>
    intro hacc l hl
    rw [pySplitLinesAux] at hl
    simp only [List.mem_cons] at hl
    rcases hl with rfl | hl
    · simpa using hacc
    · exact ih (by simp) l hl
  | case4 c tail acc hnotrn hbreak ih =>
    intro hacc l hl
    rw [pySplitLinesAux] at hl
    · rw [if_pos hbreak] at hl
      simp only [List.mem_cons] at hl
      rcases hl with rfl | hl
      · simpa using hacc
      · exact ih (by simp) l hl
    · exact hnotrn
  | case5 c tail acc hnotrn hbreak ih =>
    intro hacc l hl
    rw [pySplitLinesAux] at hl
    · rw [if_neg hbreak] at hl
      have hc : c ≠ '\n' := by
        intro hc
        subst hc
        exact hbreak (by decide)
      have hmem : '\n' ∉ c :: acc := by
        simp only [List.mem_cons, not_or]
        exact ⟨fun h => hc h.symm, hacc⟩
      exact ih hmem l hl
    · exact hnotrn

theorem pySplitLines_no_newline (cs : List Char) :
    ∀ l ∈ pySplitLines cs, '\n' ∉ l :=
  pySplitLinesAux_no_newline cs [] (by simp)

theorem pySplitLinesAux_sum_le : ∀ (cs acc : List Char),
    ((pySplitLinesAux cs acc).map List.length).sum ≤ cs.length + acc.length := by
  intro cs acc
  induction cs, acc using pySplitLinesAux.induct with
  | case1 acc =>
    rename_i hemp
    simp [pySplitLinesAux, hemp]
  | case2 acc =>
    rename_i hemp
    rw [pySplitLinesAux]
    rw [if_neg hemp]
    simp
  | case3 tail acc ih =>
    rw [pySplitLinesAux]
    simp only [List.map_cons, List.sum_cons, List.length_cons, List.length_reverse]
    simp only [List.length_nil] at ih
    omega
  | case4 c tail acc hnotrn hbreak ih =>
    rw [pySplitLinesAux]
    · rw [if_pos hbreak]
      simp only [List.map_cons, List.sum_cons, List.length_cons, List.length_reverse]
      simp only [List.length_nil] at ih
      omega
    · exact hnotrn
  | case5 c tail acc hnotrn hbreak ih =>
    rw [pySplitLinesAux]
    · rw [if_neg hbreak]
      simp only [List.length_cons] at ih ⊢
      omega
    · exact hnotrn

theorem pySplitLines_sum_le (cs : List Char) :
    ((pySplitLines cs).map List.length).sum ≤ cs.length := by
  simpa using pySplitLinesAux_sum_le cs []

theorem pyRStrip_subset (cs : List Char) : pyRStrip cs ⊆ cs := by
  intro x hx
  simp only [pyRStrip, List.mem_reverse] at hx
  have h1 : x ∈ cs.reverse := List.Sublist.subset (List.dropWhile_sublist _) hx
  simpa using h1

theorem pyRStrip_length_le (cs : List Char) : (pyRStrip cs).length ≤ cs.length := by
  simp only [pyRStrip, List.length_reverse]
  calc (cs.reverse.dropWhile isPySpace).length
      ≤ cs.reverse.length := List.Sublist.length_le (List.dropWhile_sublist _)
    _ = cs.length := by simp

theorem tokenizeLines_op_not_star : ∀ (lines : List (List Char)) (n : Nat),
    (∀ l ∈ lines, '\n' ∉ l) →
    ∀ t ∈ tokenizeLines n lines, t.type = TokenType.OPERATOR → t.value ≠ "*" := by
  intro lines
  induction lines with
  | nil =>
    intro n h t ht
    simp [tokenizeLines] at ht
  | cons line rest ih =>
    intro n h t ht hop
    rw [tokenizeLines] at ht
    rw [List.mem_append] at ht
    rcases ht with ht | ht
    · split at ht
      · split at ht
        · simp only [List.mem_singleton] at ht
          subst ht
          simp at hop
        · have hline : '\n' ∉ line := h line (List.mem_cons_self _ _)
          have hsub : '\n' ∉ pyRStrip (line.drop 6) := by
            intro hx
            exact hline (List.drop_subset _ _ (pyRStrip_subset _ hx))
          simp only [tokenizeLine] at ht
          exact tokenizeLineAux_op_not_star n _ _ _ hsub t ht hop
      · simp at ht
    · exact ih (n + 1) (fun l hl => h l (List.mem_cons_of_mem _ hl)) t ht hop

theorem tokenizeLines_length_le : ∀ (lines : List (List Char)) (n : Nat),
    (tokenizeLines n lines).length ≤ (lines.map List.length).sum := by
  intro lines
  induction lines with
  | nil => intro n; simp [tokenizeLines]
  | cons line rest ih =>
    intro n
    rw [tokenizeLines, List.length_append]
    have hline : (if 6 < line.length then
        (if 7 < line.length ∧ line.get? 6 = some '*' then
          [⟨TokenType.COMMENT, String.mk (pyStrip (line.drop 7)), n, 7⟩]
        else tokenizeLine n (pyRStrip (line.drop 6)) 7)
      else []).length ≤ line.length := by
      split
      · split
        · rename_i h6 h7
          simp only [List.length_singleton]
          omega
        · rename_i h6 h7
          simp only [tokenizeLine]
          have h1 := tokenizeLineAux_length_le n ((pyRStrip (line.drop 6)).length + 1)
            (pyRStrip (line.drop 6)) 7
          have h2 := pyRStrip_length_le (line.drop 6)
          have h3 : (line.drop 6).length = line.length - 6 := by simp [List.length_drop]
          omega
      · simp
    have hrest := ih (n + 1)
    simp only [List.map_cons, List.sum_cons]
    omega

theorem tokenize_op_not_star (src : String) :
    ∀ t ∈ tokenize src, t.type = TokenType.OPERATOR → t.value ≠ "*" := by
  intro t ht
  exact tokenizeLines_op_not_star _ 1 (pySplitLines_no_newline src.data) t ht

theorem tokenize_length_le (src : String) : (tokenize src).length ≤ src.length := by
  have h1 := tokenizeLines_length_le (pySplitLines src.data) 1
  have h2 := pySplitLines_sum_le src.data
  have h3 : src.length = src.data.length := rfl
  simp only [tokenize]
  omega

theorem classifyWord_sound (w : String) :
    classifyWord w ≠ TokenType.SECTION ∧
      (classifyWord w = TokenType.KEYWORD → cobolKeywords.contains (pyUpperStr w) = true) := by
  unfold classifyWord
  split
  · exact ⟨by simp, by simp⟩
  · split
    · rename_i hkw
      exact ⟨by simp, fun _ => hkw⟩
    · exact ⟨by simp, by simp⟩

theorem scanToken_type_sound (lineNo col : Nat) (cs : List Char) (t : Token) (n : Nat)
    (h : scanToken lineNo col cs = (some t, n)) :
    t.type ≠ TokenType.SECTION ∧
      (t.type = TokenType.KEYWORD → cobolKeywords.contains (pyUpperStr t.value) = true) := by
  unfold scanToken at h
  cases h1 : matchWhitespace cs with
  | some k => rw [h1] at h; simp at h
  | none =>
  rw [h1] at h
  cases h2 : matchComment cs with
  | some k =>
    rw [h2] at h
    simp only [Prod.mk.injEq, Option.some.injEq] at h
    rw [← h.1]
    exact ⟨by simp, by simp⟩
  | none =>
  rw [h2] at h
  cases h3 : matchStringLit cs with
  | some p =>
    obtain ⟨k, mid⟩ := p
    rw [h3] at h
    simp only [Prod.mk.injEq, Option.some.injEq] at h
    rw [← h.1]
    exact ⟨by simp, by simp⟩
  | none =>
  rw [h3] at h
  cases h4 : matchNumber cs with
  | some k =>
    rw [h4] at h
    simp only [Prod.mk.injEq, Option.some.injEq] at h
    rw [← h.1]
    exact ⟨by simp, by simp⟩
  | none =>
  rw [h4] at h
  cases h5 : matchIdentifier cs with
  | some k =>
    rw [h5] at h
    simp only [Prod.mk.injEq, Option.some.injEq] at h
    rw [← h.1]
    simpa using classifyWord_sound (String.mk (cs.take k))
  | none =>
  rw [h5] at h
  cases h6 : matchOperator cs with
  | some k =>
    rw [h6] at h
    simp only [Prod.mk.injEq, Option.some.injEq] at h
    rw [← h.1]
    exact ⟨by simp, by simp⟩
  | none =>
  rw [h6] at h
  cases h7 : matchPunct cs with
  | some k =>
    rw [h7] at h
    simp only [Prod.mk.injEq, Option.some.injEq] at h
    rw [← h.1]
    exact ⟨by simp, by simp⟩
  | none =>
  rw [h7] at h
  cases h8 : matchSpecial cs with
  | some k =>
    rw [h8] at h
    simp only [Prod.mk.injEq, Option.some.injEq] at h
    rw [← h.1]
    exact ⟨by simp, by simp⟩
  | none =>
  rw [h8] at h
  match cs with
  | [] => simp at h
  | c :: rest2 =>
    simp only [Prod.mk.injEq, Option.some.injEq] at h
    rw [← h.1]
    exact ⟨by simp, by simp⟩

theorem tokenizeLineAux_type_sound (lineNo : Nat) :
    ∀ (fuel : Nat) (cs : List Char) (col : Nat),
      ∀ t ∈ tokenizeLineAux lineNo fuel cs col,
        t.type ≠ TokenType.SECTION ∧
          (t.type = TokenType.KEYWORD → cobolKeywords.contains (pyUpperStr t.value) = true) := by
  intro fuel
  induction fuel with
  | zero =>
    intro cs col t ht
    simp [tokenizeLineAux] at ht
  | succ fuel ih =>
    intro cs col t ht
    match cs with
    | [] => simp [tokenizeLineAux] at ht
    | c :: rest =>
      rw [tokenizeLineAux] at ht
      cases hscan : scanToken lineNo col (c :: rest) with
      | mk tk k =>
        rw [hscan] at ht
        cases tk with
        | some t0 =>
          simp only [List.mem_cons] at ht
          rcases ht with rfl | ht
          · exact scanToken_type_sound lineNo col (c :: rest) t k hscan
          · exact ih _ _ t ht
        | none => exact ih _ _ t ht

theorem tokenizeLines_type_sound : ∀ (lines : List (List Char)) (n : Nat),
    ∀ t ∈ tokenizeLines n lines,
      t.type ≠ TokenType.SECTION ∧
        (t.type = TokenType.KEYWORD → cobolKeywords.contains (pyUpperStr t.value) = true) := by
  intro lines
  induction lines with
  | nil =>
    intro n t ht
    simp [tokenizeLines] at ht
  | cons line rest ih =>
    intro n t ht
    rw [tokenizeLines] at ht
    rw [List.mem_append] at ht
    rcases ht with ht | ht
    · split at ht
      · split at ht
        · simp only [List.mem_singleton] at ht
          subst ht
          exact ⟨by simp, by simp⟩
        · simp only [tokenizeLine] at ht
          exact tokenizeLineAux_type_sound n _ _ _ t ht
      · simp at ht
    · exact ih (n + 1) t ht

theorem tokenize_type_sound (src : String) :
    ∀ t ∈ tokenize src,
      t.type ≠ TokenType.SECTION ∧
        (t.type = TokenType.KEYWORD → cobolKeywords.contains (pyUpperStr t.value) = true) := by
  intro t ht
  exact tokenizeLines_type_sound _ 1 t ht

theorem tokenize_no_section_token (src : String) :
    (tokenize src).all (fun t => t.type != TokenType.SECTION) = true := by
  rw [List.all_eq_true]
  intro t ht
  simpa using (tokenize_type_sound src t ht).1

theorem tokenize_no_map_keyword (src : String) :
    (tokenize src).all
      (fun t => !(t.type == TokenType.KEYWORD && pyUpperStr t.value == "MAP")) = true := by
  rw [List.all_eq_true]
  intro t ht
  have h := (tokenize_type_sound src t ht).2
  by_cases hk : t.type = TokenType.KEYWORD
  · have hmem := h hk
    have hne : pyUpperStr t.value ≠ "MAP" := by
      intro hv
      rw [hv] at hmem
      have : cobolKeywords.contains "MAP" = false := by decide
      rw [this] at hmem
      simp at hmem
    simp [hk, hne]
  · simp [hk]

/-- C5 counterexample: the token stream of the single line EXEC SQL DELETE
FROM CUSTOMER contains no END-EXEC token, yet resource extraction does emit a
Resource for the unterminated block (the operation keyword DELETE was found),
contradicting the claim that no Resource is emitted. -/
theorem c5_unterminated_exec_counterexample :
    ((tokenize "       EXEC SQL DELETE FROM CUSTOMER").all
      (fun t => pyUpperStr t.value != "END-EXEC") = true) ∧
    (parseProgram "P" "       EXEC SQL DELETE FROM CUSTOMER").resources.map
      (fun r => (r.type, r.operation, r.name)) = [("SQL", "DELETE", "CUSTOMER")] := by
  exact ⟨by decide, by decide⟩

/-- C5 (amended): on an EXEC block with no END-EXEC before the end of the
token stream, resource extraction terminates at end of stream without raising
(the scan is total and emits at most one Resource per consumed token); it
emits no Resource for the unterminated block when no Keyword token follows
the sublanguage token, but when an operation keyword is found a Resource is
emitted even though the block is unterminated. -/
theorem c5_unterminated_exec :
    (∀ ts : List Token, (extractResources ts).length ≤ ts.length) ∧
    (∀ (e t : Token) (rest : List Token),
      e.type = TokenType.KEYWORD → pyUpperStr e.value = "EXEC" →
      (∀ u ∈ t :: rest, pyUpperStr u.value ≠ "END-EXEC") →
      (∀ u ∈ rest, u.type ≠ TokenType.KEYWORD) →
      extractResources (e :: t :: rest) = []) := by
  constructor
  · intro ts
    exact extractResourcesFuel_length_le _ ts
  · intro e t rest he hev hne hnk
    have hop1 : (resourceScan ["FROM", "INTO", "UPDATE", "TABLE"] rest none none).1 = none :=
      resourceScan_no_keyword _ _ _ hnk
    have hop2 : (resourceScan ["PROGRAM", "TRANSID", "QUEUE", "FILE"] rest none none).1 = none :=
      resourceScan_no_keyword _ _ _ hnk
    have hop3 : (resourceScan ["QNAME", "QUEUE"] rest none none).1 = none :=
      resourceScan_no_keyword _ _ _ hnk
    have hskip : skipPastEndExec (t :: rest) = [] := skipPastEndExec_eq_nil _ hne
    simp only [extractResources, List.length_cons]
    simp only [extractResourcesFuel]
    rw [if_pos ⟨he, hev⟩, hskip, extractResourcesFuel_nil]
    by_cases hS : pyUpperStr t.value = "SQL"
    · simp [hS, hop1]
    · by_cases hC : pyUpperStr t.value = "CICS"
      · simp [hC, hS, hop2]
      · by_cases hM : pyUpperStr t.value = "MQ"
        · simp [hM, hS, hC, hop3]
        · simp [hS, hC, hM]

/-- Witness for C5 at a concrete unterminated block: EXEC followed by SQL and
one identifier, with no END-EXEC and no keyword in the remainder, yields no
resources, and the scan respects the length bound on that stream. -/
theorem c5_unterminated_exec_witness :
    extractResources
      [⟨TokenType.KEYWORD, "EXEC", 1, 8⟩, ⟨TokenType.IDENTIFIER, "SQL", 1, 13⟩,
       ⟨TokenType.IDENTIFIER, "FOO", 1, 17⟩] = [] :=
  c5_unterminated_exec.2 ⟨TokenType.KEYWORD, "EXEC", 1, 8⟩ ⟨TokenType.IDENTIFIER, "SQL", 1, 13⟩
    [⟨TokenType.IDENTIFIER, "FOO", 1, 17⟩] (by decide) (by decide) (by decide) (by decide)

/-- C1 counterexample: parsing a source file whose code area is the single
line EXEC SQL SELECT * FROM CUSTOMER END-EXEC does not produce a Resource
named CUSTOMER: the star makes the tokenizer treat the remainder of the line
as a Comment token, so the FROM clause is never seen. -/
theorem c1_exec_sql_select_counterexample :
    ¬ ((parseProgram "ORDERS" "       EXEC SQL SELECT * FROM CUSTOMER END-EXEC").resources.map
      (fun r => (r.type, r.operation, r.name)) = [("SQL", "SELECT", "CUSTOMER")]) := by
  decide

/-- C1 (amended): parsing a source file whose code area contains the block
EXEC SQL SELECT * FROM CUSTOMER END-EXEC on one source line produces exactly
one Resource with type SQL, operation SELECT, and name UNKNOWN (the star and
everything after it on the line become a single Comment token, so FROM
CUSTOMER and END-EXEC are hidden from the resource scan and the name stays
unresolved). -/
theorem c1_exec_sql_select_resource :
    (parseProgram "ORDERS" "       EXEC SQL SELECT * FROM CUSTOMER END-EXEC").resources.map
      (fun r => (r.type, r.operation, r.name)) = [("SQL", "SELECT", "UNKNOWN")] := by
  decide

/-- C2: a token sequence with the Identifier MAIN-SEC immediately followed by
the word SECTION while the PROCEDURE division is open does not put any
section in the division map: the tokenizer classifies SECTION as a Keyword
token and never produces a token of type TokenType.SECTION on any input, and
the parser only opens sections on a Section-typed token. -/
theorem c2_section_never_recorded :
    (∀ src : String, (tokenize src).all (fun t => t.type != TokenType.SECTION) = true) ∧
    ((tokenize "       PROCEDURE DIVISION.\n       MAIN-SEC SECTION.").map
      (fun t => (t.type, t.value)) =
      [(TokenType.DIVISION, "PROCEDURE"), (TokenType.KEYWORD, "DIVISION"),
       (TokenType.PUNCTUATION, "."), (TokenType.IDENTIFIER, "MAIN-SEC"),
       (TokenType.KEYWORD, "SECTION"), (TokenType.PUNCTUATION, ".")]) ∧
    (parseProgram "P" "       PROCEDURE DIVISION.\n       MAIN-SEC SECTION.").divisions.map
      (fun e => (e.1, e.2.sections)) = [("PROCEDURE", [])] := by
  exact ⟨tokenize_no_section_token, by decide, by decide⟩

/-- C3: on the line MOVE WS-A TO WS-B, which contains no bare I/O verb, the
second file-reference scan still registers WS-A and WS-B as UNKNOWN
FileReferences: the same-line lookahead runs for every token, not only after
an I/O verb (the verb check binds a variable that is never read). -/
theorem c3_file_scan_without_io_verb :
    ((tokenize "       MOVE WS-A TO WS-B").all
      (fun t => !(["OPEN", "CLOSE", "READ", "WRITE", "REWRITE", "DELETE", "START"].contains
        (pyUpperStr t.value))) = true) ∧
    (parseProgram "P" "       MOVE WS-A TO WS-B").files.map
      (fun f => (f.name, f.access_mode)) = [("WS-A", "UNKNOWN"), ("WS-B", "UNKNOWN")] := by
  exact ⟨by decide, by decide⟩

/-- C8: a bare SEND MAP MENU-MAP sequence adds nothing to maps_used, because
MAP is not in the reserved-word list, so on no input does the tokenizer emit
a Keyword token whose uppercase value is MAP, while the bare pattern requires
one; the EXEC CICS SEND MAP MENU-MAP END-EXEC block does add MENU-MAP. -/
theorem c8_send_map_patterns :
    (∀ src : String, (tokenize src).all
      (fun t => !(t.type == TokenType.KEYWORD && pyUpperStr t.value == "MAP")) = true) ∧
    ((tokenize "       SEND MAP MENU-MAP").map (fun t => (t.type, t.value)) =
      [(TokenType.KEYWORD, "SEND"), (TokenType.IDENTIFIER, "MAP"),
       (TokenType.IDENTIFIER, "MENU-MAP")]) ∧
    (parseProgram "P" "       SEND MAP MENU-MAP").maps_used = [] ∧
    (parseProgram "P" "       EXEC CICS SEND MAP MENU-MAP END-EXEC").maps_used = ["MENU-MAP"] := by
  exact ⟨tokenize_no_map_keyword, by decide, by decide, by decide⟩

/-- C9: a star reached by the line scanner (here: at the head of the
remaining slice of a line, which contains no newline) produces a single
Comment token whose text is the entire remainder of the line, and
consequently tokenize never emits an Operator token with value star for any
input. -/
theorem c9_midline_star_comment :
    (∀ (lineNo col fuel : Nat) (rest : List Char), '\n' ∉ rest →
      tokenizeLineAux lineNo (fuel + 1) ('*' :: rest) col =
        [⟨TokenType.COMMENT, String.mk ('*' :: rest), lineNo, col⟩]) ∧
    (∀ (src : String), ∀ t ∈ tokenize src,
      ¬ (t.type = TokenType.OPERATOR ∧ t.value = "*")) := by
  constructor
  · intro lineNo col fuel rest h
    rw [tokenizeLineAux]
    rw [scanToken_star lineNo col rest h]
    simp only [List.drop_succ_cons, List.drop_length, tokenizeLineAux_nil]
  · intro src t ht hcontra
    exact tokenize_op_not_star src t ht hcontra.1 hcontra.2

/-- Witness for C9: a concrete scanner state at a star followed by the letter
F yields exactly one Comment token covering the remainder, and the Identifier
token produced by tokenizing a one-word source line is not a star Operator. -/
theorem c9_midline_star_comment_witness :
    (tokenizeLineAux 1 1 ('*' :: ['F']) 7 =
      [⟨TokenType.COMMENT, String.mk ('*' :: ['F']), 1, 7⟩]) ∧
    ¬ ((⟨TokenType.IDENTIFIER, "A", 1, 8⟩ : Token).type = TokenType.OPERATOR ∧
       (⟨TokenType.IDENTIFIER, "A", 1, 8⟩ : Token).value = "*") :=
  ⟨c9_midline_star_comment.1 1 7 0 ['F'] (by decide),
   c9_midline_star_comment.2 "       A" ⟨TokenType.IDENTIFIER, "A", 1, 8⟩ (by decide)⟩

/-- C10: tokenize is total and the token list is finite, with at most one
token per input character (each scan step consumes at least one character,
so the per-line loop strictly advances); when no pattern matches at the
current character, exactly one Unknown token for that single character is
emitted and the scan continues right after it. -/
theorem c10_tokenize_total_progress :
    (∀ src : String, (tokenize src).length ≤ src.length) ∧
    (∀ (lineNo col : Nat) (cs : List Char), 1 ≤ (scanToken lineNo col cs).2) ∧
    (∀ (lineNo fuel col : Nat) (c : Char) (cs : List Char),
      matchWhitespace (c :: cs) = none → matchComment (c :: cs) = none →
      matchStringLit (c :: cs) = none → matchNumber (c :: cs) = none →
      matchIdentifier (c :: cs) = none → matchOperator (c :: cs) = none →
      matchPunct (c :: cs) = none → matchSpecial (c :: cs) = none →
      tokenizeLineAux lineNo (fuel + 1) (c :: cs) col =
        ⟨TokenType.UNKNOWN, String.mk [c], lineNo, col⟩ ::
          tokenizeLineAux lineNo fuel cs (col + 1)) := by
  refine ⟨tokenize_length_le, scanToken_pos, ?_⟩
  · intro lineNo fuel col c cs h1 h2 h3 h4 h5 h6 h7 h8
    rw [tokenizeLineAux]
    unfold scanToken
    rw [h1, h2, h3, h4, h5, h6, h7, h8]
    simp

/-- Witness for C10: the at-sign matches no pattern, so scanning the
single-character line produces exactly one Unknown token. -/
theorem c10_tokenize_total_progress_witness :
    tokenizeLineAux 1 1 ['@'] 7 = [⟨TokenType.UNKNOWN, String.mk ['@'], 1, 7⟩] := by
  have h := c10_tokenize_total_progress.2.2 1 0 7 '@' [] (by decide) (by decide) (by decide)
    (by decide) (by decide) (by decide) (by decide) (by decide)
  simpa [tokenizeLineAux_nil] using h
